import Mathlib

/-!
Verification of the transaction ledger engine in `src/main.rs`.

The engine consumes an ordered list of transaction records and folds them
into a map from client id to account state.  Monetary amounts are the
`rust_decimal` fixed-point decimals of the source; every operation the
engine performs on them (addition, subtraction, comparison) is exact, so
they are embedded as integers (`Int`, to be read as the amount scaled to
its smallest fixed-point unit).  The two hash maps of the source
(`accounts : HashMap<u16, Account>` and `deposits : HashMap<u32, DepositTx>`)
are embedded as association lists with hash-map semantics: `insertKV`
replaces the binding when the key is present (as `HashMap::insert`),
`lookupKV` finds the binding (`HashMap::get`), `modifyKV` mutates the
binding in place (`HashMap::get_mut`).  Client ids (u16) and transaction
ids (u32) are only compared for equality, never computed with, so they are
embedded as `Nat`.
-/

inductive TransactionType : Type where
  | Deposit
  | Withdrawal
  | Dispute
  | Resolve
  | Chargeback
deriving DecidableEq, Repr

structure TransactionRecord : Type where
  tx_type : TransactionType
  client : Nat
  tx : Nat
  amount : Option Int
deriving DecidableEq, Repr

structure DepositTx : Type where
  amount : Int
  disputed : Bool
deriving DecidableEq, Repr

/-- Association-list lookup, embedding `HashMap::get`. -/
def lookupKV {α : Type} : List (Nat × α) → Nat → Option α
  | [], _ => none
  | (k, v) :: rest, key => if k = key then some v else lookupKV rest key

/-- Association-list insert-or-replace, embedding `HashMap::insert`. -/
def insertKV {α : Type} : List (Nat × α) → Nat → α → List (Nat × α)
  | [], key, v => [(key, v)]
  | (k, w) :: rest, key, v =>
      if k = key then (k, v) :: rest else (k, w) :: insertKV rest key v

/-- Association-list in-place update, embedding mutation through
`HashMap::get_mut`: the bound value, when present, is replaced by `f`
of itself. -/
def modifyKV {α : Type} : List (Nat × α) → Nat → (α → α) → List (Nat × α)
  | [], _, _ => []
  | (k, w) :: rest, key, f =>
      if k = key then (k, f w) :: rest else (k, w) :: modifyKV rest key f

structure Account : Type where
  available : Int
  held : Int
  locked : Bool
  deposits : List (Nat × DepositTx)
deriving DecidableEq, Repr

/-- `Account::new()`: zero balances, unlocked, empty deposit history. -/
def Account.new : Account :=
  { available := 0, held := 0, locked := false, deposits := [] }

/-- Writes the `disputed` flag of the deposit record stored under `tx`,
embedding the `deposit.disputed = b` mutation through `get_mut`. -/
def setDisputed (deposits : List (Nat × DepositTx)) (tx : Nat) (b : Bool) :
    List (Nat × DepositTx) :=
  modifyKV deposits tx (fun d => { d with disputed := b })

/-- The per-record body of the `for` loop of `process_records`, acting on
the account of `r.client`: the locked guard followed by the dispatch on
the transaction type. -/
def applyTx (account : Account) (r : TransactionRecord) : Account :=
  if account.locked then account
  else
    match r.tx_type with
    | TransactionType.Deposit =>
        match r.amount with
        | some amount =>
            { account with
                available := account.available + amount,
                deposits :=
                  insertKV account.deposits r.tx
                    { amount := amount, disputed := false } }
        | none => account
    | TransactionType.Withdrawal =>
        match r.amount with
        | some amount =>
            if account.available ≥ amount then
              { account with available := account.available - amount }
            else account
        | none => account
    | TransactionType.Dispute =>
        match lookupKV account.deposits r.tx with
        | some deposit =>
            if deposit.disputed then account
            else
              { account with
                  available := account.available - deposit.amount,
                  held := account.held + deposit.amount,
                  deposits := setDisputed account.deposits r.tx true }
        | none => account
    | TransactionType.Resolve =>
        match lookupKV account.deposits r.tx with
        | some deposit =>
            if deposit.disputed then
              { account with
                  held := account.held - deposit.amount,
                  available := account.available + deposit.amount,
                  deposits := setDisputed account.deposits r.tx false }
            else account
        | none => account
    | TransactionType.Chargeback =>
        match lookupKV account.deposits r.tx with
        | some deposit =>
            if deposit.disputed then
              { account with
                  held := account.held - deposit.amount,
                  locked := true,
                  deposits := setDisputed account.deposits r.tx false }
            else account
        | none => account

/-- One iteration of the loop of `process_records`: resolve or create the
account of the client (`entry(..).or_insert_with(Account::new)`), then
apply the record to it. -/
def processRecord (accounts : List (Nat × Account)) (r : TransactionRecord) :
    List (Nat × Account) :=
  insertKV accounts r.client
    (applyTx ((lookupKV accounts r.client).getD Account.new) r)

/-- `process_records`: fold the record stream, in input order, starting
from the empty account map. -/
def process_records (records : List TransactionRecord) : List (Nat × Account) :=
  records.foldl processRecord []

/-- The account state of a client in a map, the freshly created account
when the client has no entry. -/
def account_of (accounts : List (Nat × Account)) (client : Nat) : Account :=
  (lookupKV accounts client).getD Account.new

/-- Number of map entries stored under a key. -/
def countKey {α : Type} : List (Nat × α) → Nat → Nat
  | [], _ => 0
  | (k, _) :: rest, key => (if k = key then 1 else 0) + countKey rest key

/-- Sum of the amounts of the currently disputed records of a history. -/
def sumDisputed (l : List (Nat × DepositTx)) : Int :=
  (l.map (fun p => if p.2.disputed then p.2.amount else 0)).sum

/-- Inductive invariant behind the nonnegativity of `held`: every stored
deposit amount is nonnegative and `held` dominates the sum of the amounts
of the currently disputed records. -/
def AccInv (a : Account) : Prop :=
  (∀ p ∈ a.deposits, 0 ≤ p.2.amount) ∧ sumDisputed a.deposits ≤ a.held

/-- The open-dispute count that one account state exhibits for one
deposit: one when the record exists and is flagged disputed, else zero. -/
def recCount (a : Account) (tx : Nat) : Int :=
  match lookupKV a.deposits tx with
  | some d => if d.disputed then 1 else 0
  | none => 0

/-- The open-dispute count that the whole account map exhibits for one
deposit of one client. -/
def stateCount (accs : List (Nat × Account)) (c tx : Nat) : Int :=
  recCount (account_of accs c) tx

/-- Modelled from the spec: the contribution of one event to the number of
open disputes against the transaction id it references, judged on the
account state just before the event.  A Dispute the engine accepts opens a
dispute (+1); a Resolve or Chargeback the engine accepts closes one (-1);
every other event, and every event the engine drops, contributes 0. -/
def eventDelta (a : Account) (r : TransactionRecord) : Int :=
  if a.locked then 0
  else
    match r.tx_type with
    | TransactionType.Dispute =>
        match lookupKV a.deposits r.tx with
        | some d => if d.disputed then 0 else 1
        | none => 0
    | TransactionType.Resolve =>
        match lookupKV a.deposits r.tx with
        | some d => if d.disputed then -1 else 0
        | none => 0
    | TransactionType.Chargeback =>
        match lookupKV a.deposits r.tx with
        | some d => if d.disputed then -1 else 0
        | none => 0
    | _ => 0

/-- Modelled from the spec: running from the map `accs`, the net number of
dispute openings minus closings that the remaining stream performs against
deposit `tx` of client `c`. -/
def openCountFrom (accs : List (Nat × Account)) :
    List TransactionRecord → Nat → Nat → Int
  | [], _, _ => 0
  | r :: rest, c, tx =>
      (if r.client = c ∧ r.tx = tx then eventDelta (account_of accs r.client) r else 0)
        + openCountFrom (processRecord accs r) rest c tx

/-- Modelled from the spec: the number of disputes opened and not yet
closed against deposit `tx` of client `c` over a whole stream. -/
def openDisputeCount (recs : List TransactionRecord) (c tx : Nat) : Int :=
  openCountFrom [] recs c tx

/-- Holds when, along the replay from `accs`, no Deposit event re-uses a
transaction id already present in the deposit history of its client. -/
def freshDeposits (accs : List (Nat × Account)) : List TransactionRecord → Bool
  | [] => true
  | r :: rest =>
      (match r.tx_type with
       | TransactionType.Deposit =>
           (lookupKV (account_of accs r.client).deposits r.tx).isNone
       | _ => true)
      && freshDeposits (processRecord accs r) rest

/-! ### Concrete streams used to exercise the engine -/

/-- Deposit 5 and 3, dispute both, charge back the first: the final
account of client 1 is locked while the second deposit is still disputed. -/
def lockedDisputedStream : List TransactionRecord :=
  [{ tx_type := TransactionType.Deposit, client := 1, tx := 1, amount := some 5 },
   { tx_type := TransactionType.Deposit, client := 1, tx := 2, amount := some 3 },
   { tx_type := TransactionType.Dispute, client := 1, tx := 1, amount := none },
   { tx_type := TransactionType.Dispute, client := 1, tx := 2, amount := none },
   { tx_type := TransactionType.Chargeback, client := 1, tx := 1, amount := none }]

/-- Deposit under tx 10, dispute it, then deposit again under the same
tx 10: the overwrite resets the disputed flag while the dispute opened
against tx 10 is never closed. -/
def reusedTxStream : List TransactionRecord :=
  [{ tx_type := TransactionType.Deposit, client := 1, tx := 10, amount := some 5 },
   { tx_type := TransactionType.Dispute, client := 1, tx := 10, amount := none },
   { tx_type := TransactionType.Deposit, client := 1, tx := 10, amount := some 3 }]

/-! ### Association-list lemmas -/

theorem lookupKV_insertKV_self {α : Type} (l : List (Nat × α)) (k : Nat) (v : α) :
    lookupKV (insertKV l k v) k = some v := by
  induction l with
  | nil => simp [insertKV, lookupKV]
  | cons p rest ih =>
      obtain ⟨k0, v0⟩ := p
      by_cases h : k0 = k
      · simp [insertKV, lookupKV, h]
      · simp [insertKV, lookupKV, h, ih]

theorem lookupKV_insertKV_ne {α : Type} (l : List (Nat × α)) (k c : Nat) (v : α)
    (h : c ≠ k) : lookupKV (insertKV l k v) c = lookupKV l c := by
  induction l with
  | nil => simp [insertKV, lookupKV, Ne.symm h]
  | cons p rest ih =>
      obtain ⟨k0, v0⟩ := p
      by_cases hk : k0 = k
      · subst hk
        simp [insertKV, lookupKV, Ne.symm h]
      · simp [insertKV, lookupKV, hk, ih]

theorem lookupKV_modifyKV_self {α : Type} (l : List (Nat × α)) (k : Nat) (f : α → α) :
    lookupKV (modifyKV l k f) k = (lookupKV l k).map f := by
  induction l with
  | nil => simp [modifyKV, lookupKV]
  | cons p rest ih =>
      obtain ⟨k0, v0⟩ := p
      by_cases h : k0 = k
      · simp [modifyKV, lookupKV, h]
      · simp [modifyKV, lookupKV, h, ih]

theorem lookupKV_modifyKV_ne {α : Type} (l : List (Nat × α)) (k c : Nat) (f : α → α)
    (h : c ≠ k) : lookupKV (modifyKV l k f) c = lookupKV l c := by
  induction l with
  | nil => simp [modifyKV, lookupKV]
  | cons p rest ih =>
      obtain ⟨k0, v0⟩ := p
      by_cases hk : k0 = k
      · subst hk
        simp [modifyKV, lookupKV, Ne.symm h]
      · simp [modifyKV, lookupKV, hk, ih]

theorem insertKV_of_lookup_eq {α : Type} (l : List (Nat × α)) (k : Nat) (v : α)
    (h : lookupKV l k = some v) : insertKV l k v = l := by
  induction l with
  | nil => simp [lookupKV] at h
  | cons p rest ih =>
      obtain ⟨k0, v0⟩ := p
      by_cases hk : k0 = k
      · subst hk
        simp [lookupKV] at h
        simp [insertKV, h]
      · simp [lookupKV, hk] at h
        simp [insertKV, hk, ih h]

theorem lookupKV_isSome_iff_mem_keys {α : Type} (l : List (Nat × α)) (k : Nat) :
    (lookupKV l k).isSome ↔ k ∈ l.map Prod.fst := by
  induction l with
  | nil => simp [lookupKV]
  | cons p rest ih =>
      obtain ⟨k0, v0⟩ := p
      by_cases h : k0 = k
      · simp [lookupKV, h]
      · simp [lookupKV, h, Ne.symm h, ih]

theorem mem_keys_insertKV {α : Type} (l : List (Nat × α)) (k c : Nat) (v : α) :
    c ∈ (insertKV l k v).map Prod.fst ↔ c = k ∨ c ∈ l.map Prod.fst := by
  induction l with
  | nil => simp [insertKV]
  | cons p rest ih =>
      obtain ⟨k0, v0⟩ := p
      by_cases h : k0 = k
      · subst h
        simp [insertKV]
      · simp [insertKV, h, ih]
        tauto

theorem keys_nodup_insertKV {α : Type} (l : List (Nat × α)) (k : Nat) (v : α)
    (h : (l.map Prod.fst).Nodup) : ((insertKV l k v).map Prod.fst).Nodup := by
  induction l with
  | nil => simp [insertKV]
  | cons p rest ih =>
      obtain ⟨k0, v0⟩ := p
      rw [List.map_cons, List.nodup_cons] at h
      by_cases hk : k0 = k
      · subst hk
        rw [insertKV, if_pos rfl, List.map_cons, List.nodup_cons]
        exact ⟨h.1, h.2⟩
      · rw [insertKV, if_neg hk, List.map_cons, List.nodup_cons]
        refine ⟨fun hc => ?_, ih h.2⟩
        rw [mem_keys_insertKV] at hc
        rcases hc with hc | hc
        · exact hk hc
        · exact h.1 hc

/-! ### Case shape lemmas for `applyTx` -/

theorem applyTx_locked (a : Account) (r : TransactionRecord) (h : a.locked = true) :
    applyTx a r = a := by
  simp [applyTx, h]

theorem applyTx_deposit_some (a : Account) (r : TransactionRecord) (x : Int)
    (hl : a.locked = false) (ht : r.tx_type = TransactionType.Deposit)
    (hx : r.amount = some x) :
    applyTx a r =
      { a with
          available := a.available + x,
          deposits := insertKV a.deposits r.tx { amount := x, disputed := false } } := by
  simp [applyTx, hl, ht, hx]

theorem applyTx_amount_none (a : Account) (r : TransactionRecord)
    (ht : r.tx_type = TransactionType.Deposit ∨ r.tx_type = TransactionType.Withdrawal)
    (hx : r.amount = none) :
    applyTx a r = a := by
  by_cases hl : a.locked
  · simp [applyTx, hl]
  · rcases ht with ht | ht <;> simp [applyTx, hl, ht, hx]

theorem applyTx_withdrawal_insufficient (a : Account) (r : TransactionRecord) (x : Int)
    (ht : r.tx_type = TransactionType.Withdrawal) (hx : r.amount = some x)
    (hlt : a.available < x) :
    applyTx a r = a := by
  by_cases hl : a.locked
  · simp [applyTx, hl]
  · simp [applyTx, hl, ht, hx, not_le.mpr hlt]

theorem applyTx_withdrawal_sufficient (a : Account) (r : TransactionRecord) (x : Int)
    (hl : a.locked = false) (ht : r.tx_type = TransactionType.Withdrawal)
    (hx : r.amount = some x) (hle : x ≤ a.available) :
    applyTx a r = { a with available := a.available - x } := by
  simp [applyTx, hl, ht, hx, hle]

theorem applyTx_ref_unknown (a : Account) (r : TransactionRecord)
    (ht : r.tx_type = TransactionType.Dispute ∨ r.tx_type = TransactionType.Resolve
        ∨ r.tx_type = TransactionType.Chargeback)
    (hd : lookupKV a.deposits r.tx = none) :
    applyTx a r = a := by
  by_cases hl : a.locked
  · simp [applyTx, hl]
  · rcases ht with ht | ht | ht <;> simp [applyTx, hl, ht, hd]

theorem applyTx_dispute_already (a : Account) (r : TransactionRecord) (d : DepositTx)
    (ht : r.tx_type = TransactionType.Dispute)
    (hd : lookupKV a.deposits r.tx = some d) (hflag : d.disputed = true) :
    applyTx a r = a := by
  by_cases hl : a.locked
  · simp [applyTx, hl]
  · simp [applyTx, hl, ht, hd, hflag]

theorem applyTx_dispute_success (a : Account) (r : TransactionRecord) (d : DepositTx)
    (hl : a.locked = false) (ht : r.tx_type = TransactionType.Dispute)
    (hd : lookupKV a.deposits r.tx = some d) (hflag : d.disputed = false) :
    applyTx a r =
      { a with
          available := a.available - d.amount,
          held := a.held + d.amount,
          deposits := setDisputed a.deposits r.tx true } := by
  simp [applyTx, hl, ht, hd, hflag]

theorem applyTx_resolve_not_disputed (a : Account) (r : TransactionRecord) (d : DepositTx)
    (ht : r.tx_type = TransactionType.Resolve)
    (hd : lookupKV a.deposits r.tx = some d) (hflag : d.disputed = false) :
    applyTx a r = a := by
  by_cases hl : a.locked
  · simp [applyTx, hl]
  · simp [applyTx, hl, ht, hd, hflag]

theorem applyTx_resolve_success (a : Account) (r : TransactionRecord) (d : DepositTx)
    (hl : a.locked = false) (ht : r.tx_type = TransactionType.Resolve)
    (hd : lookupKV a.deposits r.tx = some d) (hflag : d.disputed = true) :
    applyTx a r =
      { a with
          held := a.held - d.amount,
          available := a.available + d.amount,
          deposits := setDisputed a.deposits r.tx false } := by
  simp [applyTx, hl, ht, hd, hflag]

theorem applyTx_chargeback_not_disputed (a : Account) (r : TransactionRecord) (d : DepositTx)
    (ht : r.tx_type = TransactionType.Chargeback)
    (hd : lookupKV a.deposits r.tx = some d) (hflag : d.disputed = false) :
    applyTx a r = a := by
  by_cases hl : a.locked
  · simp [applyTx, hl]
  · simp [applyTx, hl, ht, hd, hflag]

theorem applyTx_chargeback_success (a : Account) (r : TransactionRecord) (d : DepositTx)
    (hl : a.locked = false) (ht : r.tx_type = TransactionType.Chargeback)
    (hd : lookupKV a.deposits r.tx = some d) (hflag : d.disputed = true) :
    applyTx a r =
      { a with
          held := a.held - d.amount,
          locked := true,
          deposits := setDisputed a.deposits r.tx false } := by
  simp [applyTx, hl, ht, hd, hflag]

/-- The deposit record found after `setDisputed` under the written key. -/
theorem lookupKV_setDisputed_self (l : List (Nat × DepositTx)) (k : Nat) (b : Bool) :
    lookupKV (setDisputed l k b) k
      = (lookupKV l k).map (fun d => { d with disputed := b }) :=
  lookupKV_modifyKV_self l k (fun d => { d with disputed := b })

/-- A record only touches the map entry of its own client. -/
theorem lookupKV_processRecord_ne (accs : List (Nat × Account))
    (r : TransactionRecord) (c : Nat) (h : c ≠ r.client) :
    lookupKV (processRecord accs r) c = lookupKV accs c :=
  lookupKV_insertKV_ne accs r.client c _ h

/-- One step keeps a locked account entry literally unchanged. -/
theorem processRecord_locked_fixed (accs : List (Nat × Account))
    (r : TransactionRecord) (c : Nat) (a : Account)
    (h1 : lookupKV accs c = some a) (h2 : a.locked = true) :
    lookupKV (processRecord accs r) c = some a := by
  by_cases hc : c = r.client
  · subst hc
    unfold processRecord
    rw [h1, Option.getD_some, applyTx_locked a r h2, lookupKV_insertKV_self]
  · rw [lookupKV_processRecord_ne accs r c hc, h1]

/-- Any further stream segment keeps a locked account entry unchanged. -/
theorem foldl_locked_fixed (recs : List TransactionRecord) :
    ∀ accs c a, lookupKV accs c = some a → a.locked = true →
      lookupKV (List.foldl processRecord accs recs) c = some a := by
  induction recs with
  | nil => intro accs c a h1 _; simpa using h1
  | cons r rest ih =>
      intro accs c a h1 h2
      rw [List.foldl_cons]
      exact ih (processRecord accs r) c a (processRecord_locked_fixed accs r c a h1 h2) h2

example :
    account_of (process_records
      [{ tx_type := TransactionType.Deposit, client := 1, tx := 1, amount := some 10000 }]) 1
      = { available := 10000, held := 0, locked := false,
          deposits := [(1, { amount := 10000, disputed := false })] } := by decide

example :
    account_of (process_records
      [{ tx_type := TransactionType.Deposit, client := 1, tx := 10, amount := some 20000 },
       { tx_type := TransactionType.Dispute, client := 1, tx := 10, amount := none },
       { tx_type := TransactionType.Chargeback, client := 1, tx := 10, amount := none }]) 1
      = { available := 0, held := 0, locked := true,
          deposits := [(10, { amount := 20000, disputed := false })] } := by decide

/-! ### Claim theorems -/

/-- Claim C3: once an account is locked, no subsequent event of any kind
changes any of its fields (available, held, locked, deposit history) for
the remainder of the stream. -/
theorem lock_freezes_account_forever (accs : List (Nat × Account))
    (recs : List TransactionRecord) (c : Nat) (a : Account)
    (h1 : lookupKV accs c = some a) (h2 : a.locked = true) :
    lookupKV (List.foldl processRecord accs recs) c = some a :=
  foldl_locked_fixed recs accs c a h1 h2

/-- Witness for C3: the locked account reached by `lockedDisputedStream`
survives a further deposit and resolve untouched. -/
theorem lock_freezes_account_forever_witness :
    lookupKV (List.foldl processRecord (process_records lockedDisputedStream)
      [{ tx_type := TransactionType.Deposit, client := 1, tx := 7, amount := some 9 },
       { tx_type := TransactionType.Resolve, client := 1, tx := 2, amount := none }]) 1
      = some { available := 0, held := 3, locked := true,
               deposits := [(1, { amount := 5, disputed := false }),
                            (2, { amount := 3, disputed := true })] } :=
  lock_freezes_account_forever _ _ 1 _ (by decide) (by decide)

/-- Claim C5: a Withdrawal for more than `available` is a no-op on the
account, and whenever a Withdrawal is applied the precondition
`amount ≤ available` held, so `available` stays nonnegative. -/
theorem withdrawal_insufficiency_safe (a : Account) (r : TransactionRecord)
    (ht : r.tx_type = TransactionType.Withdrawal) :
    (∀ x, r.amount = some x → a.available < x → applyTx a r = a)
    ∧ (applyTx a r = a ∨
        ∃ x, r.amount = some x ∧ x ≤ a.available
          ∧ (applyTx a r).available = a.available - x
          ∧ 0 ≤ (applyTx a r).available
          ∧ (applyTx a r).held = a.held ∧ (applyTx a r).locked = a.locked) := by
  constructor
  · intro x hx hlt
    exact applyTx_withdrawal_insufficient a r x ht hx hlt
  · cases hl : a.locked
    · cases hx : r.amount with
      | none => exact Or.inl (applyTx_amount_none a r (Or.inr ht) hx)
      | some x =>
          by_cases hle : x ≤ a.available
          · have e := applyTx_withdrawal_sufficient a r x hl ht hx hle
            refine Or.inr ⟨x, rfl, hle, ?_, ?_, ?_, ?_⟩
            · rw [e]
            · rw [e]
              simp only
              omega
            · rw [e]
            · rw [e]
              exact hl
          · exact Or.inl (applyTx_withdrawal_insufficient a r x ht hx (lt_of_not_le hle))
    · exact Or.inl (applyTx_locked a r hl)

/-- Witness for C5: withdrawing 11 from an account with 10 available
changes nothing. -/
theorem withdrawal_insufficiency_safe_witness :
    applyTx { available := 10, held := 0, locked := false, deposits := [] }
        { tx_type := TransactionType.Withdrawal, client := 1, tx := 2, amount := some 11 }
      = { available := 10, held := 0, locked := false, deposits := [] } :=
  (withdrawal_insufficiency_safe _ _ rfl).1 11 rfl (by decide)

/-- Claim C6: applying the same Resolve event twice in a row yields the
same account state as applying it once, and likewise for Chargeback. -/
theorem resolve_chargeback_idempotent (a : Account) (r : TransactionRecord)
    (h : r.tx_type = TransactionType.Resolve ∨ r.tx_type = TransactionType.Chargeback) :
    applyTx (applyTx a r) r = applyTx a r := by
  cases hl : a.locked
  · cases hd : lookupKV a.deposits r.tx with
    | none =>
        have e := applyTx_ref_unknown a r (Or.inr h) hd
        rw [e]; exact e
    | some d =>
        cases hflag : d.disputed
        · rcases h with hR | hC
          · have e := applyTx_resolve_not_disputed a r d hR hd hflag
            rw [e]; exact e
          · have e := applyTx_chargeback_not_disputed a r d hC hd hflag
            rw [e]; exact e
        · rcases h with hR | hC
          · rw [applyTx_resolve_success a r d hl hR hd hflag]
            exact applyTx_resolve_not_disputed _ r
              { amount := d.amount, disputed := false } hR
              (by rw [lookupKV_setDisputed_self, hd]; rfl) rfl
          · rw [applyTx_chargeback_success a r d hl hC hd hflag]
            exact applyTx_locked _ r rfl
  · have e := applyTx_locked a r hl
    rw [e]; exact e

/-- Witness for C6: resolving the same disputed deposit twice equals
resolving it once. -/
theorem resolve_chargeback_idempotent_witness :
    applyTx (applyTx
        { available := 0, held := 5, locked := false,
          deposits := [(1, { amount := 5, disputed := true })] }
        { tx_type := TransactionType.Resolve, client := 1, tx := 1, amount := none })
        { tx_type := TransactionType.Resolve, client := 1, tx := 1, amount := none }
      = applyTx
        { available := 0, held := 5, locked := false,
          deposits := [(1, { amount := 5, disputed := true })] }
        { tx_type := TransactionType.Resolve, client := 1, tx := 1, amount := none } :=
  resolve_chargeback_idempotent _ _ (Or.inl rfl)

/-- Claim C7: a Dispute, Resolve or Chargeback referencing a transaction
id with no deposit record in the history of its client leaves the account
state entirely unchanged, both on the account and on the account map. -/
theorem unknown_reference_noop (a : Account) (r : TransactionRecord)
    (ht : r.tx_type = TransactionType.Dispute ∨ r.tx_type = TransactionType.Resolve
        ∨ r.tx_type = TransactionType.Chargeback)
    (hd : lookupKV a.deposits r.tx = none) :
    applyTx a r = a
    ∧ ∀ accs : List (Nat × Account), lookupKV accs r.client = some a →
        processRecord accs r = accs := by
  have e := applyTx_ref_unknown a r ht hd
  refine ⟨e, fun accs hacc => ?_⟩
  unfold processRecord
  rw [hacc, Option.getD_some, e]
  exact insertKV_of_lookup_eq accs r.client a hacc

/-- Witness for C7: a dispute on the unknown transaction id 99 leaves the
whole account map unchanged. -/
theorem unknown_reference_noop_witness :
    processRecord
        [(1, { available := 4, held := 0, locked := false,
               deposits := [(1, { amount := 4, disputed := false })] })]
        { tx_type := TransactionType.Dispute, client := 1, tx := 99, amount := none }
      = [(1, { available := 4, held := 0, locked := false,
               deposits := [(1, { amount := 4, disputed := false })] })] :=
  (unknown_reference_noop
      { available := 4, held := 0, locked := false,
        deposits := [(1, { amount := 4, disputed := false })] }
      { tx_type := TransactionType.Dispute, client := 1, tx := 99, amount := none }
      (Or.inl rfl) (by decide)).2 _ (by decide)

/-- Claim C8: the engine is total and every precondition failure is a
silent no-op: a locked account drops any event, a Deposit or Withdrawal
without an amount is dropped, an insufficient Withdrawal is dropped, a
Dispute, Resolve or Chargeback on an unknown transaction id is dropped, a
Dispute on an already disputed record is dropped, a Resolve or Chargeback
on an undisputed record is dropped, and an event never touches the entry
of any other client. -/
theorem engine_total_silent_noop (a : Account) (r : TransactionRecord) :
    (a.locked = true → applyTx a r = a)
    ∧ ((r.tx_type = TransactionType.Deposit ∨ r.tx_type = TransactionType.Withdrawal) →
        r.amount = none → applyTx a r = a)
    ∧ (∀ x, r.tx_type = TransactionType.Withdrawal → r.amount = some x →
        a.available < x → applyTx a r = a)
    ∧ ((r.tx_type = TransactionType.Dispute ∨ r.tx_type = TransactionType.Resolve
          ∨ r.tx_type = TransactionType.Chargeback) →
        lookupKV a.deposits r.tx = none → applyTx a r = a)
    ∧ (∀ d, r.tx_type = TransactionType.Dispute → lookupKV a.deposits r.tx = some d →
        d.disputed = true → applyTx a r = a)
    ∧ (∀ d, (r.tx_type = TransactionType.Resolve ∨ r.tx_type = TransactionType.Chargeback) →
        lookupKV a.deposits r.tx = some d → d.disputed = false → applyTx a r = a)
    ∧ (∀ accs c, c ≠ r.client →
        lookupKV (processRecord accs r) c = lookupKV accs c) := by
  refine ⟨applyTx_locked a r,
    fun ht hx => applyTx_amount_none a r ht hx,
    fun x ht hx hlt => applyTx_withdrawal_insufficient a r x ht hx hlt,
    fun ht hd => applyTx_ref_unknown a r ht hd,
    fun d ht hd hflag => applyTx_dispute_already a r d ht hd hflag,
    fun d ht hd hflag => ?_,
    fun accs c hc => lookupKV_processRecord_ne accs r c hc⟩
  rcases ht with hR | hC
  · exact applyTx_resolve_not_disputed a r d hR hd hflag
  · exact applyTx_chargeback_not_disputed a r d hC hd hflag

/-- Witness for C8: a locked account silently drops a deposit. -/
theorem engine_total_silent_noop_witness :
    applyTx { available := 1, held := 2, locked := true, deposits := [] }
      { tx_type := TransactionType.Deposit, client := 3, tx := 4, amount := some 5 }
      = { available := 1, held := 2, locked := true, deposits := [] } :=
  (engine_total_silent_noop _ _).1 rfl

/-- Claim C1 (amended): on an account that is not locked, a Chargeback on
a currently disputed deposit record decreases held by exactly the amount
of the record, leaves available unchanged, sets locked, clears the
disputed flag, and so decreases total by exactly the disputed amount. -/
theorem chargeback_success_effect (a : Account) (r : TransactionRecord) (d : DepositTx)
    (hl : a.locked = false) (ht : r.tx_type = TransactionType.Chargeback)
    (hd : lookupKV a.deposits r.tx = some d) (hflag : d.disputed = true) :
    (applyTx a r).held = a.held - d.amount
    ∧ (applyTx a r).available = a.available
    ∧ (applyTx a r).locked = true
    ∧ lookupKV (applyTx a r).deposits r.tx = some { amount := d.amount, disputed := false }
    ∧ (applyTx a r).available + (applyTx a r).held = (a.available + a.held) - d.amount := by
  have e := applyTx_chargeback_success a r d hl ht hd hflag
  rw [e]
  refine ⟨rfl, rfl, rfl, ?_, ?_⟩
  · show lookupKV (setDisputed a.deposits r.tx false) r.tx = _
    rw [lookupKV_setDisputed_self, hd]
    rfl
  · simp only
    omega

/-- Counterexample for C1 as stated: the state reached by
`lockedDisputedStream` is locked while its deposit 2 is still disputed
with amount 3; processing a Chargeback on it changes nothing, in
particular held does not decrease by the disputed amount. -/
theorem chargeback_locked_counterexample :
    (account_of (process_records lockedDisputedStream) 1).locked = true
    ∧ lookupKV (account_of (process_records lockedDisputedStream) 1).deposits 2
        = some { amount := 3, disputed := true }
    ∧ applyTx (account_of (process_records lockedDisputedStream) 1)
        { tx_type := TransactionType.Chargeback, client := 1, tx := 2, amount := none }
        = account_of (process_records lockedDisputedStream) 1
    ∧ (applyTx (account_of (process_records lockedDisputedStream) 1)
        { tx_type := TransactionType.Chargeback, client := 1, tx := 2, amount := none }).held
        ≠ (account_of (process_records lockedDisputedStream) 1).held - 3 := by decide

/-- Witness for the amended C1: charging back a disputed deposit of 5
drains held from 5 to 0. -/
theorem chargeback_success_effect_witness :
    (applyTx { available := 0, held := 5, locked := false,
               deposits := [(1, { amount := 5, disputed := true })] }
        { tx_type := TransactionType.Chargeback, client := 1, tx := 1, amount := none }).held
      = (5:Int) - 5 :=
  (chargeback_success_effect
      { available := 0, held := 5, locked := false,
        deposits := [(1, { amount := 5, disputed := true })] }
      { tx_type := TransactionType.Chargeback, client := 1, tx := 1, amount := none }
      { amount := 5, disputed := true } rfl rfl (by decide) rfl).1

/-- Claim C2 (amended): on an account that is not locked, a Dispute on a
deposit record that is not yet disputed moves exactly the amount of the
record from available to held, marks the record disputed, and leaves
total and the locked flag unchanged. -/
theorem dispute_success_effect (a : Account) (r : TransactionRecord) (d : DepositTx)
    (hl : a.locked = false) (ht : r.tx_type = TransactionType.Dispute)
    (hd : lookupKV a.deposits r.tx = some d) (hflag : d.disputed = false) :
    (applyTx a r).held = a.held + d.amount
    ∧ (applyTx a r).available = a.available - d.amount
    ∧ lookupKV (applyTx a r).deposits r.tx = some { amount := d.amount, disputed := true }
    ∧ (applyTx a r).available + (applyTx a r).held = a.available + a.held
    ∧ (applyTx a r).locked = a.locked := by
  have e := applyTx_dispute_success a r d hl ht hd hflag
  rw [e]
  refine ⟨rfl, rfl, ?_, ?_, rfl⟩
  · show lookupKV (setDisputed a.deposits r.tx true) r.tx = _
    rw [lookupKV_setDisputed_self, hd]
    rfl
  · simp only
    omega

/-- Counterexample for C2 as stated: the state reached by
`lockedDisputedStream` is locked and its deposit 1, of amount 5, is not
disputed; processing a Dispute on it changes nothing, in particular held
does not increase by the amount of the record. -/
theorem dispute_locked_counterexample :
    (account_of (process_records lockedDisputedStream) 1).locked = true
    ∧ lookupKV (account_of (process_records lockedDisputedStream) 1).deposits 1
        = some { amount := 5, disputed := false }
    ∧ applyTx (account_of (process_records lockedDisputedStream) 1)
        { tx_type := TransactionType.Dispute, client := 1, tx := 1, amount := none }
        = account_of (process_records lockedDisputedStream) 1
    ∧ (applyTx (account_of (process_records lockedDisputedStream) 1)
        { tx_type := TransactionType.Dispute, client := 1, tx := 1, amount := none }).held
        ≠ (account_of (process_records lockedDisputedStream) 1).held + 5 := by decide

/-- Witness for the amended C2: disputing a deposit of 4 moves held from
0 to 0 + 4. -/
theorem dispute_success_effect_witness :
    (applyTx { available := 4, held := 0, locked := false,
               deposits := [(7, { amount := 4, disputed := false })] }
        { tx_type := TransactionType.Dispute, client := 1, tx := 7, amount := none }).held
      = (0:Int) + 4 :=
  (dispute_success_effect
      { available := 4, held := 0, locked := false,
        deposits := [(7, { amount := 4, disputed := false })] }
      { tx_type := TransactionType.Dispute, client := 1, tx := 7, amount := none }
      { amount := 4, disputed := false } rfl rfl (by decide) rfl).1

/-- After one step, an entry for a client is present exactly when it was
present before or the record addressed that client. -/
theorem lookup_processRecord_isSome (accs : List (Nat × Account))
    (r : TransactionRecord) (c : Nat) :
    (lookupKV (processRecord accs r) c).isSome
      ↔ c = r.client ∨ (lookupKV accs c).isSome := by
  by_cases hc : c = r.client
  · subst hc
    unfold processRecord
    rw [lookupKV_insertKV_self]
    simp
  · unfold processRecord
    rw [lookupKV_insertKV_ne _ _ _ _ hc]
    simp [hc]

/-- An entry exists in the folded map exactly when the client appears in
the stream segment or already had an entry. -/
theorem lookup_foldl_isSome (recs : List TransactionRecord) :
    ∀ accs c, (lookupKV (List.foldl processRecord accs recs) c).isSome
      ↔ c ∈ recs.map TransactionRecord.client ∨ (lookupKV accs c).isSome := by
  induction recs with
  | nil => intro accs c; simp
  | cons r rest ih =>
      intro accs c
      rw [List.foldl_cons, ih (processRecord accs r) c, lookup_processRecord_isSome,
        List.map_cons, List.mem_cons]
      tauto

/-- Folding the engine preserves distinctness of the stored client ids. -/
theorem keys_nodup_foldl (recs : List TransactionRecord) :
    ∀ accs : List (Nat × Account), (accs.map Prod.fst).Nodup →
      ((List.foldl processRecord accs recs).map Prod.fst).Nodup := by
  induction recs with
  | nil => intro accs h; simpa using h
  | cons r rest ih =>
      intro accs h
      rw [List.foldl_cons]
      exact ih (processRecord accs r) (keys_nodup_insertKV accs r.client _ h)

/-- With distinct keys, the number of entries under a key is one when the
key is bound and zero otherwise. -/
theorem countKey_eq_of_nodup {α : Type} (l : List (Nat × α)) (c : Nat)
    (h : (l.map Prod.fst).Nodup) :
    countKey l c = if (lookupKV l c).isSome then 1 else 0 := by
  induction l with
  | nil => simp [countKey, lookupKV]
  | cons p rest ih =>
      obtain ⟨k, v⟩ := p
      rw [List.map_cons, List.nodup_cons] at h
      by_cases hc : k = c
      · subst hc
        have hz : (lookupKV rest k).isSome = false := by
          rw [Bool.eq_false_iff]
          intro hs
          exact h.1 ((lookupKV_isSome_iff_mem_keys rest k).mp hs)
        rw [countKey, lookupKV, if_pos rfl, if_pos rfl, ih h.2, hz]
        simp
      · rw [countKey, lookupKV, if_neg hc, if_neg hc, ih h.2]
        exact Nat.zero_add _

/-- Claim C9: the final map has an entry for a client exactly when some
event of the stream (of any kind) mentions that client, that entry is
unique, and the entry born at the first event mentioning the client is
the fresh zero account with that event applied; clients never mentioned
have no entry. -/
theorem account_lifecycle (recs : List TransactionRecord) (c : Nat) :
    ((lookupKV (process_records recs) c).isSome
        ↔ c ∈ recs.map TransactionRecord.client)
    ∧ countKey (process_records recs) c
        = (if c ∈ recs.map TransactionRecord.client then 1 else 0)
    ∧ ∀ pre r post, recs = pre ++ r :: post → r.client = c →
        c ∉ pre.map TransactionRecord.client →
        lookupKV (process_records (pre ++ [r])) c = some (applyTx Account.new r) := by
  have hiff : (lookupKV (List.foldl processRecord [] recs) c).isSome
      ↔ c ∈ recs.map TransactionRecord.client := by
    rw [lookup_foldl_isSome]
    simp [lookupKV]
  refine ⟨hiff, ?_, ?_⟩
  · unfold process_records
    rw [countKey_eq_of_nodup _ _ (keys_nodup_foldl recs [] (by simp))]
    by_cases hm : c ∈ recs.map TransactionRecord.client
    · rw [if_pos hm, if_pos (hiff.mpr hm)]
    · rw [if_neg hm, if_neg (fun hs => hm (hiff.mp hs))]
  · intro pre r post _hsplit hc hpre
    subst hc
    have h2 := lookup_foldl_isSome pre ([] : List (Nat × Account)) r.client
    simp only [lookupKV, Option.isSome_none, Bool.false_eq_true, or_false] at h2
    have hnone : lookupKV (List.foldl processRecord [] pre) r.client = none := by
      cases hl : lookupKV (List.foldl processRecord [] pre) r.client with
      | none => rfl
      | some a => exact absurd (h2.mp (by rw [hl]; rfl)) hpre
    unfold process_records
    rw [List.foldl_append, List.foldl_cons, List.foldl_nil]
    simp only [processRecord]
    rw [hnone, lookupKV_insertKV_self]
    rfl

/-- Witness for C9: the first deposit of client 2 creates its entry as the
zero account with that deposit applied. -/
theorem account_lifecycle_witness :
    lookupKV (process_records
      [{ tx_type := TransactionType.Deposit, client := 2, tx := 1, amount := some 5 }]) 2
      = some (applyTx Account.new
          { tx_type := TransactionType.Deposit, client := 2, tx := 1, amount := some 5 }) :=
  (account_lifecycle
      [{ tx_type := TransactionType.Deposit, client := 2, tx := 1, amount := some 5 }]
      2).2.2 [] _ [] rfl rfl (by decide)

/-- Unfolding of `sumDisputed` on a cons cell. -/
theorem sumDisputed_cons (k : Nat) (v : DepositTx) (rest : List (Nat × DepositTx)) :
    sumDisputed ((k, v) :: rest)
      = (if v.disputed then v.amount else 0) + sumDisputed rest := by
  simp [sumDisputed]

/-- Unfolding of `setDisputed` on a cons cell. -/
theorem setDisputed_cons (k0 : Nat) (v0 : DepositTx) (rest : List (Nat × DepositTx))
    (k : Nat) (b : Bool) :
    setDisputed ((k0, v0) :: rest) k b
      = if k0 = k then (k0, { v0 with disputed := b }) :: rest
        else (k0, v0) :: setDisputed rest k b := by
  by_cases h : k0 = k <;> simp [setDisputed, modifyKV, h]

/-- Every member of an insert-or-replace is an old member or the new pair. -/
theorem mem_insertKV {α : Type} (l : List (Nat × α)) (k : Nat) (v : α) :
    ∀ q ∈ insertKV l k v, q ∈ l ∨ q = (k, v) := by
  induction l with
  | nil =>
      intro q hq
      rw [insertKV, List.mem_singleton] at hq
      exact Or.inr hq
  | cons p rest ih =>
      obtain ⟨k0, v0⟩ := p
      intro q hq
      by_cases hk : k0 = k
      · subst hk
        rw [insertKV, if_pos rfl, List.mem_cons] at hq
        rcases hq with h | h
        · exact Or.inr h
        · exact Or.inl (List.mem_cons_of_mem _ h)
      · rw [insertKV, if_neg hk, List.mem_cons] at hq
        rcases hq with h | h
        · exact Or.inl (h ▸ List.mem_cons_self _ _)
        · rcases ih q h with h2 | h2
          · exact Or.inl (List.mem_cons_of_mem _ h2)
          · exact Or.inr h2

/-- Every member of an in-place update is an old member or the image of
an old member under the update function. -/
theorem mem_modifyKV {α : Type} (l : List (Nat × α)) (k : Nat) (f : α → α) :
    ∀ q ∈ modifyKV l k f, q ∈ l ∨ ∃ p, p ∈ l ∧ q = (p.1, f p.2) := by
  induction l with
  | nil => intro q hq; rw [modifyKV] at hq; cases hq
  | cons p rest ih =>
      obtain ⟨k0, v0⟩ := p
      intro q hq
      by_cases hk : k0 = k
      · subst hk
        rw [modifyKV, if_pos rfl, List.mem_cons] at hq
        rcases hq with h | h
        · exact Or.inr ⟨(k0, v0), List.mem_cons_self _ _, h⟩
        · exact Or.inl (List.mem_cons_of_mem _ h)
      · rw [modifyKV, if_neg hk, List.mem_cons] at hq
        rcases hq with h | h
        · exact Or.inl (h ▸ List.mem_cons_self _ _)
        · rcases ih q h with h2 | ⟨p2, hp2, h2⟩
          · exact Or.inl (List.mem_cons_of_mem _ h2)
          · exact Or.inr ⟨p2, List.mem_cons_of_mem _ hp2, h2⟩

/-- Inserting an undisputed record never increases the disputed sum when
all stored amounts are nonnegative. -/
theorem sumDisputed_insertKV_false_le (l : List (Nat × DepositTx)) (k : Nat) (x : Int)
    (h : ∀ p ∈ l, 0 ≤ p.2.amount) :
    sumDisputed (insertKV l k { amount := x, disputed := false }) ≤ sumDisputed l := by
  induction l with
  | nil => simp [insertKV, sumDisputed]
  | cons p rest ih =>
      obtain ⟨k0, v0⟩ := p
      have hv0 : 0 ≤ v0.amount := h (k0, v0) (List.mem_cons_self _ _)
      have hrest := ih (fun q hq => h q (List.mem_cons_of_mem _ hq))
      have hc : (0:Int) ≤ if v0.disputed then v0.amount else 0 := by
        by_cases hd : v0.disputed <;> simp [hd, hv0]
      by_cases hk : k0 = k
      · subst hk
        rw [insertKV, if_pos rfl, sumDisputed_cons, sumDisputed_cons]
        simp only [Bool.false_eq_true, if_false]
        omega
      · rw [insertKV, if_neg hk, sumDisputed_cons, sumDisputed_cons]
        omega

/-- Marking an undisputed record disputed adds its amount to the
disputed sum. -/
theorem sumDisputed_setDisputed_true (l : List (Nat × DepositTx)) (k : Nat)
    (d : DepositTx) (hd : lookupKV l k = some d) (hflag : d.disputed = false) :
    sumDisputed (setDisputed l k true) = sumDisputed l + d.amount := by
  induction l with
  | nil => rw [lookupKV] at hd; cases hd
  | cons p rest ih =>
      obtain ⟨k0, v0⟩ := p
      by_cases hk : k0 = k
      · subst hk
        rw [lookupKV, if_pos rfl] at hd
        injection hd with hd
        subst hd
        rw [setDisputed_cons, if_pos rfl, sumDisputed_cons, sumDisputed_cons]
        simp only [hflag, Bool.false_eq_true, if_false, if_true]
        omega
      · rw [lookupKV, if_neg hk] at hd
        rw [setDisputed_cons, if_neg hk, sumDisputed_cons, sumDisputed_cons, ih hd]
        omega

/-- Clearing a disputed record removes its amount from the disputed sum. -/
theorem sumDisputed_setDisputed_false (l : List (Nat × DepositTx)) (k : Nat)
    (d : DepositTx) (hd : lookupKV l k = some d) (hflag : d.disputed = true) :
    sumDisputed (setDisputed l k false) = sumDisputed l - d.amount := by
  induction l with
  | nil => rw [lookupKV] at hd; cases hd
  | cons p rest ih =>
      obtain ⟨k0, v0⟩ := p
      by_cases hk : k0 = k
      · subst hk
        rw [lookupKV, if_pos rfl] at hd
        injection hd with hd
        subst hd
        rw [setDisputed_cons, if_pos rfl, sumDisputed_cons, sumDisputed_cons]
        simp only [hflag, Bool.false_eq_true, if_false, if_true]
        omega
      · rw [lookupKV, if_neg hk] at hd
        rw [setDisputed_cons, if_neg hk, sumDisputed_cons, sumDisputed_cons, ih hd]
        omega

/-- All disputed contributions are nonnegative when amounts are. -/
theorem sumDisputed_nonneg (l : List (Nat × DepositTx))
    (h : ∀ p ∈ l, 0 ≤ p.2.amount) : 0 ≤ sumDisputed l := by
  induction l with
  | nil => simp [sumDisputed]
  | cons p rest ih =>
      obtain ⟨k, v⟩ := p
      rw [sumDisputed_cons]
      have h1 : 0 ≤ v.amount := h (k, v) (List.mem_cons_self _ _)
      have h2 := ih (fun q hq => h q (List.mem_cons_of_mem _ hq))
      have h3 : (0:Int) ≤ if v.disputed then v.amount else 0 := by
        by_cases hdv : v.disputed <;> simp [hdv, h1]
      omega

/-- The freshly created account satisfies the held invariant. -/
theorem AccInv_new : AccInv Account.new := by
  constructor
  · intro p hp
    rw [Account.new] at hp
    cases hp
  · simp [Account.new, sumDisputed]

/-- One event preserves the held invariant, provided a Deposit always
carries a nonnegative amount. -/
theorem applyTx_AccInv (a : Account) (r : TransactionRecord)
    (hr : ∀ x, r.tx_type = TransactionType.Deposit → r.amount = some x → 0 ≤ x)
    (h : AccInv a) : AccInv (applyTx a r) := by
  obtain ⟨hamt, hsum⟩ := h
  cases hl : a.locked
  case true => rw [applyTx_locked a r hl]; exact ⟨hamt, hsum⟩
  case false =>
  cases ht : r.tx_type with
  | Deposit =>
      cases hx : r.amount with
      | none => rw [applyTx_amount_none a r (Or.inl ht) hx]; exact ⟨hamt, hsum⟩
      | some x =>
          have hx0 : 0 ≤ x := hr x ht hx
          rw [applyTx_deposit_some a r x hl ht hx]
          constructor
          · intro p hp
            rcases mem_insertKV _ _ _ p hp with h2 | h2
            · exact hamt p h2
            · rw [h2]; exact hx0
          · have := sumDisputed_insertKV_false_le a.deposits r.tx x hamt
            simp only
            omega
  | Withdrawal =>
      cases hx : r.amount with
      | none => rw [applyTx_amount_none a r (Or.inr ht) hx]; exact ⟨hamt, hsum⟩
      | some x =>
          by_cases hle : x ≤ a.available
          · rw [applyTx_withdrawal_sufficient a r x hl ht hx hle]
            exact ⟨hamt, hsum⟩
          · rw [applyTx_withdrawal_insufficient a r x ht hx (lt_of_not_le hle)]
            exact ⟨hamt, hsum⟩
  | Dispute =>
      cases hd : lookupKV a.deposits r.tx with
      | none => rw [applyTx_ref_unknown a r (Or.inl ht) hd]; exact ⟨hamt, hsum⟩
      | some d =>
          cases hflag : d.disputed
          case true => rw [applyTx_dispute_already a r d ht hd hflag]; exact ⟨hamt, hsum⟩
          case false =>
            rw [applyTx_dispute_success a r d hl ht hd hflag]
            constructor
            · intro p hp
              rcases mem_modifyKV _ _ _ p hp with h2 | ⟨q, hq, h2⟩
              · exact hamt p h2
              · rw [h2]; exact hamt q hq
            · have := sumDisputed_setDisputed_true a.deposits r.tx d hd hflag
              simp only
              omega
  | Resolve =>
      cases hd : lookupKV a.deposits r.tx with
      | none => rw [applyTx_ref_unknown a r (Or.inr (Or.inl ht)) hd]; exact ⟨hamt, hsum⟩
      | some d =>
          cases hflag : d.disputed
          case false =>
            rw [applyTx_resolve_not_disputed a r d ht hd hflag]; exact ⟨hamt, hsum⟩
          case true =>
            rw [applyTx_resolve_success a r d hl ht hd hflag]
            constructor
            · intro p hp
              rcases mem_modifyKV _ _ _ p hp with h2 | ⟨q, hq, h2⟩
              · exact hamt p h2
              · rw [h2]; exact hamt q hq
            · have := sumDisputed_setDisputed_false a.deposits r.tx d hd hflag
              simp only
              omega
  | Chargeback =>
      cases hd : lookupKV a.deposits r.tx with
      | none => rw [applyTx_ref_unknown a r (Or.inr (Or.inr ht)) hd]; exact ⟨hamt, hsum⟩
      | some d =>
          cases hflag : d.disputed
          case false =>
            rw [applyTx_chargeback_not_disputed a r d ht hd hflag]; exact ⟨hamt, hsum⟩
          case true =>
            rw [applyTx_chargeback_success a r d hl ht hd hflag]
            constructor
            · intro p hp
              rcases mem_modifyKV _ _ _ p hp with h2 | ⟨q, hq, h2⟩
              · exact hamt p h2
              · rw [h2]; exact hamt q hq
            · have := sumDisputed_setDisputed_false a.deposits r.tx d hd hflag
              simp only
              omega

/-- One engine step preserves the held invariant on every stored account. -/
theorem processRecord_AccInv (accs : List (Nat × Account)) (r : TransactionRecord)
    (hr : ∀ x, r.tx_type = TransactionType.Deposit → r.amount = some x → 0 ≤ x)
    (h : ∀ c a, lookupKV accs c = some a → AccInv a) :
    ∀ c a, lookupKV (processRecord accs r) c = some a → AccInv a := by
  intro c a ha
  by_cases hc : c = r.client
  · subst hc
    unfold processRecord at ha
    rw [lookupKV_insertKV_self] at ha
    injection ha with ha
    subst ha
    apply applyTx_AccInv _ _ hr
    cases hb : lookupKV accs r.client with
    | none => exact AccInv_new
    | some b => exact h r.client b hb
  · rw [lookupKV_processRecord_ne accs r c hc] at ha
    exact h c a ha

/-- Folding a stream of good records preserves the held invariant. -/
theorem foldl_AccInv (recs : List TransactionRecord) :
    ∀ accs : List (Nat × Account),
      (∀ r ∈ recs, ∀ x, r.tx_type = TransactionType.Deposit → r.amount = some x → 0 ≤ x) →
      (∀ c a, lookupKV accs c = some a → AccInv a) →
      ∀ c a, lookupKV (List.foldl processRecord accs recs) c = some a → AccInv a := by
  induction recs with
  | nil => intro accs _ h c a ha; exact h c a (by simpa using ha)
  | cons r rest ih =>
      intro accs hg h
      rw [List.foldl_cons]
      exact ih (processRecord accs r) (fun q hq => hg q (List.mem_cons_of_mem _ hq))
        (processRecord_AccInv accs r (hg r (List.mem_cons_self _ _)) h)

/-- Claim C10: when every Deposit and Withdrawal of the stream carries a
nonnegative amount, the held balance of every resulting account is
nonnegative. -/
theorem held_nonneg (recs : List TransactionRecord)
    (hg : ∀ r ∈ recs,
      (r.tx_type = TransactionType.Deposit ∨ r.tx_type = TransactionType.Withdrawal) →
      ∃ x, r.amount = some x ∧ 0 ≤ x) :
    ∀ c a, lookupKV (process_records recs) c = some a → 0 ≤ a.held := by
  intro c a ha
  have hg2 : ∀ r ∈ recs, ∀ x,
      r.tx_type = TransactionType.Deposit → r.amount = some x → 0 ≤ x := by
    intro r hmem x ht hx
    obtain ⟨y, hy, hy0⟩ := hg r hmem (Or.inl ht)
    rw [hx] at hy
    injection hy with hy
    rw [hy]
    exact hy0
  have hinv := foldl_AccInv recs [] hg2
    (fun c0 a0 ha0 => by rw [lookupKV] at ha0; cases ha0) c a ha
  obtain ⟨hamt, hsum⟩ := hinv
  have h0 := sumDisputed_nonneg a.deposits hamt
  omega

/-- Witness for C10: after one deposit of 2, the held balance of client 1
is nonnegative. -/
theorem held_nonneg_witness :
    (0:Int) ≤ Account.held { available := 2, held := 0, locked := false,
                             deposits := [(10, { amount := 2, disputed := false })] } :=
  held_nonneg
    [{ tx_type := TransactionType.Deposit, client := 1, tx := 10, amount := some 2 }]
    (by
      intro r hmem hdw
      rw [List.mem_singleton] at hmem
      subst hmem
      exact ⟨2, rfl, by norm_num⟩)
    1 _ (by decide)

/-- One event shifts the per-account open-dispute count of a deposit by
exactly the delta of that event, provided a Deposit never overwrites an
existing record. -/
theorem recCount_applyTx (a : Account) (r : TransactionRecord) (tx : Nat)
    (hfresh : r.tx_type = TransactionType.Deposit → lookupKV a.deposits r.tx = none) :
    recCount (applyTx a r) tx
      = recCount a tx + (if r.tx = tx then eventDelta a r else 0) := by
  cases hl : a.locked
  case true =>
    rw [applyTx_locked a r hl]
    simp [eventDelta, hl]
  case false =>
  cases ht : r.tx_type with
  | Deposit =>
      have hd := hfresh ht
      cases hx : r.amount with
      | none =>
          rw [applyTx_amount_none a r (Or.inl ht) hx]
          simp [eventDelta, hl, ht]
      | some x =>
          have hdelta : eventDelta a r = 0 := by simp [eventDelta, hl, ht]
          rw [applyTx_deposit_some a r x hl ht hx, hdelta]
          by_cases htx : r.tx = tx
          · subst htx
            simp [recCount, lookupKV_insertKV_self, hd]
          · have e := lookupKV_insertKV_ne a.deposits r.tx tx
              { amount := x, disputed := false } (fun h => htx h.symm)
            simp [recCount, e, htx]
  | Withdrawal =>
      have hdelta : eventDelta a r = 0 := by simp [eventDelta, hl, ht]
      cases hx : r.amount with
      | none =>
          rw [applyTx_amount_none a r (Or.inr ht) hx, hdelta]
          simp
      | some x =>
          by_cases hle : x ≤ a.available
          · rw [applyTx_withdrawal_sufficient a r x hl ht hx hle, hdelta]
            simp [recCount]
          · rw [applyTx_withdrawal_insufficient a r x ht hx (lt_of_not_le hle), hdelta]
            simp
  | Dispute =>
      cases hd : lookupKV a.deposits r.tx with
      | none =>
          rw [applyTx_ref_unknown a r (Or.inl ht) hd]
          simp [eventDelta, hl, ht, hd]
      | some d =>
          cases hflag : d.disputed
          case true =>
            have hdelta : eventDelta a r = 0 := by simp [eventDelta, hl, ht, hd, hflag]
            rw [applyTx_dispute_already a r d ht hd hflag, hdelta]
            simp
          case false =>
            have hdelta : eventDelta a r = 1 := by simp [eventDelta, hl, ht, hd, hflag]
            rw [applyTx_dispute_success a r d hl ht hd hflag, hdelta]
            by_cases htx : r.tx = tx
            · subst htx
              simp [recCount, lookupKV_setDisputed_self, hd, hflag]
            · have e := lookupKV_modifyKV_ne a.deposits r.tx tx
                (fun d0 => { d0 with disputed := true }) (fun h => htx h.symm)
              simp [recCount, setDisputed, e, htx]
  | Resolve =>
      cases hd : lookupKV a.deposits r.tx with
      | none =>
          rw [applyTx_ref_unknown a r (Or.inr (Or.inl ht)) hd]
          simp [eventDelta, hl, ht, hd]
      | some d =>
          cases hflag : d.disputed
          case false =>
            have hdelta : eventDelta a r = 0 := by simp [eventDelta, hl, ht, hd, hflag]
            rw [applyTx_resolve_not_disputed a r d ht hd hflag, hdelta]
            simp
          case true =>
            have hdelta : eventDelta a r = -1 := by simp [eventDelta, hl, ht, hd, hflag]
            rw [applyTx_resolve_success a r d hl ht hd hflag, hdelta]
            by_cases htx : r.tx = tx
            · subst htx
              simp [recCount, lookupKV_setDisputed_self, hd, hflag]
            · have e := lookupKV_modifyKV_ne a.deposits r.tx tx
                (fun d0 => { d0 with disputed := false }) (fun h => htx h.symm)
              simp [recCount, setDisputed, e, htx]
  | Chargeback =>
      cases hd : lookupKV a.deposits r.tx with
      | none =>
          rw [applyTx_ref_unknown a r (Or.inr (Or.inr ht)) hd]
          simp [eventDelta, hl, ht, hd]
      | some d =>
          cases hflag : d.disputed
          case false =>
            have hdelta : eventDelta a r = 0 := by simp [eventDelta, hl, ht, hd, hflag]
            rw [applyTx_chargeback_not_disputed a r d ht hd hflag, hdelta]
            simp
          case true =>
            have hdelta : eventDelta a r = -1 := by simp [eventDelta, hl, ht, hd, hflag]
            rw [applyTx_chargeback_success a r d hl ht hd hflag, hdelta]
            by_cases htx : r.tx = tx
            · subst htx
              simp [recCount, lookupKV_setDisputed_self, hd, hflag]
            · have e := lookupKV_modifyKV_ne a.deposits r.tx tx
                (fun d0 => { d0 with disputed := false }) (fun h => htx h.symm)
              simp [recCount, setDisputed, e, htx]

/-- The processed account of the addressed client is the old account with
the record applied. -/
theorem account_of_processRecord_self (accs : List (Nat × Account))
    (r : TransactionRecord) :
    account_of (processRecord accs r) r.client
      = applyTx (account_of accs r.client) r := by
  unfold account_of
  simp only [processRecord]
  rw [lookupKV_insertKV_self]
  rfl

/-- One engine step shifts the map-level open-dispute count of a deposit
by the delta of the event when the event addresses it, and keeps it
unchanged otherwise, provided the event does not overwrite a record. -/
theorem stateCount_processRecord (accs : List (Nat × Account))
    (r : TransactionRecord) (c tx : Nat)
    (hfresh : r.tx_type = TransactionType.Deposit →
      lookupKV (account_of accs r.client).deposits r.tx = none) :
    stateCount (processRecord accs r) c tx
      = stateCount accs c tx
        + (if r.client = c ∧ r.tx = tx then eventDelta (account_of accs r.client) r else 0) := by
  by_cases hc : r.client = c
  · subst hc
    rw [stateCount, stateCount, account_of_processRecord_self,
      recCount_applyTx (account_of accs r.client) r tx hfresh]
    by_cases htx : r.tx = tx
    · rw [if_pos htx, if_pos ⟨rfl, htx⟩]
    · rw [if_neg htx, if_neg (fun h => htx h.2)]
  · have e : account_of (processRecord accs r) c = account_of accs c := by
      unfold account_of
      rw [lookupKV_processRecord_ne accs r c (fun h => hc h.symm)]
    rw [stateCount, stateCount, e, if_neg (fun h => hc h.1)]
    omega

/-- Folding a stream without record overwrites adds the accumulated
open-dispute deltas to the map-level count. -/
theorem stateCount_foldl (recs : List TransactionRecord) :
    ∀ accs c tx, freshDeposits accs recs = true →
      stateCount (List.foldl processRecord accs recs) c tx
        = stateCount accs c tx + openCountFrom accs recs c tx := by
  induction recs with
  | nil => intro accs c tx _; simp [openCountFrom]
  | cons r rest ih =>
      intro accs c tx hf
      rw [freshDeposits, Bool.and_eq_true] at hf
      obtain ⟨hf1, hf2⟩ := hf
      have hfresh : r.tx_type = TransactionType.Deposit →
          lookupKV (account_of accs r.client).deposits r.tx = none := by
        intro ht
        rw [ht] at hf1
        exact Option.isNone_iff_eq_none.mp hf1
      rw [List.foldl_cons, openCountFrom, ih (processRecord accs r) c tx hf2,
        stateCount_processRecord accs r c tx hfresh]
      omega

/-- Claim C4 (amended): provided no Deposit re-uses a transaction id
already present in the history of its client, a deposit record is flagged
disputed exactly when one open dispute (openings minus closings accepted
by the engine) stands against it; moreover a Dispute against an already
disputed record is always a no-op, so disputes never nest. -/
theorem disputed_iff_one_open_dispute (recs : List TransactionRecord)
    (hfresh : freshDeposits [] recs = true) :
    (∀ c tx d, lookupKV (account_of (process_records recs) c).deposits tx = some d →
        (d.disputed = true ↔ openDisputeCount recs c tx = 1))
    ∧ ∀ (a : Account) (r : TransactionRecord) (d : DepositTx),
        r.tx_type = TransactionType.Dispute → lookupKV a.deposits r.tx = some d →
        d.disputed = true → applyTx a r = a := by
  constructor
  · intro c tx d hd
    have hd2 : lookupKV (account_of (List.foldl processRecord [] recs) c).deposits tx
        = some d := hd
    have h := stateCount_foldl recs [] c tx hfresh
    have h0 : stateCount ([] : List (Nat × Account)) c tx = 0 := rfl
    have hoc : openDisputeCount recs c tx = openCountFrom [] recs c tx := rfl
    have hsc : stateCount (List.foldl processRecord [] recs) c tx
        = if d.disputed then 1 else 0 := by
      simp only [stateCount, recCount]
      rw [hd2]
    constructor
    · intro hflag
      rw [hflag] at hsc
      simp only [if_true] at hsc
      rw [hoc]
      omega
    · intro hcount
      rw [hoc] at hcount
      cases hb : d.disputed
      · rw [hb] at hsc
        simp only [Bool.false_eq_true, if_false] at hsc
        omega
      · rfl
  · intro a r d ht hd hflag
    exact applyTx_dispute_already a r d ht hd hflag

/-- Counterexample for C4 as stated: after `reusedTxStream` the record of
tx 10 exists with disputed == false although exactly one open dispute
stands against tx 10 of client 1 (the dispute was accepted and never
resolved or charged back; the second deposit merely overwrote the record
and reset its flag). -/
theorem dispute_count_reuse_counterexample :
    lookupKV (account_of (process_records reusedTxStream) 1).deposits 10
      = some { amount := 3, disputed := false }
    ∧ openDisputeCount reusedTxStream 1 10 = 1 := by decide

/-- Witness for the amended C4: with fresh transaction ids, a disputed
record exhibits exactly one open dispute. -/
theorem disputed_iff_one_open_dispute_witness :
    openDisputeCount
      [{ tx_type := TransactionType.Deposit, client := 1, tx := 10, amount := some 5 },
       { tx_type := TransactionType.Dispute, client := 1, tx := 10, amount := none }] 1 10
      = 1 :=
  ((disputed_iff_one_open_dispute
      [{ tx_type := TransactionType.Deposit, client := 1, tx := 10, amount := some 5 },
       { tx_type := TransactionType.Dispute, client := 1, tx := 10, amount := none }]
      (by decide)).1 1 10 { amount := 5, disputed := true } (by decide)).mp rfl
